import Mathlib

set_option maxHeartbeats 1000000

namespace GorillaBuilder

/-! Shallow embedding of the WebContainer preview supervisor of
`src/frontend/static/webcontainer.js` (class `WebRunner`): the debounced
error aggregator `_createDebouncedLogger`, the retrying `install` and
`start` phase loops, the `boot` / `mount` / `writeFile` operations and the
flat-file-to-tree conversion `_convertFilesToTree`.  Time is modelled in
milliseconds, matching the literal `3000` and `10000` delays of the code. -/

/-! String primitives.  The JavaScript string operations used by the code
are re-implemented structurally on the character list of a `String`, so
that every definition reduces in the kernel. -/

/-- Whitespace characters stripped by JavaScript `String.prototype.trim`
(restricted to the ASCII whitespace that can occur in the piped output). -/
def isWsChar (c : Char) : Bool :=
  c == ' ' || c == '\t' || c == '\n' || c == '\r'

/-- Models JavaScript `s.trim()`: drop leading and trailing whitespace. -/
def jsTrim (s : String) : String :=
  ⟨((s.data.dropWhile isWsChar).reverse.dropWhile isWsChar).reverse⟩

/-- preChars pat l is true when pat is a leading block of l. -/
def preChars : List Char → List Char → Bool
  | [], _ => true
  | _ :: _, [] => false
  | a :: pat, b :: l => a == b && preChars pat l

/-- subChars l pat is true when pat occurs contiguously inside l. -/
def subChars : List Char → List Char → Bool
  | [], pat => preChars pat []
  | a :: t, pat => preChars pat (a :: t) || subChars t pat

/-- Models JavaScript `s.includes(pat)`. -/
def jsIncludes (s pat : String) : Bool :=
  subChars s.data pat.data

/-- Models JavaScript `s.toLowerCase()` (ASCII case mapping). -/
def jsToLower (s : String) : String :=
  ⟨s.data.map Char.toLower⟩

/-- Decimal digit character. -/
def digitChar (n : Nat) : Char := Char.ofNat (48 + n % 10)

/-- Fuelled decimal rendering of a natural number. -/
def natToStrAux : Nat → Nat → List Char
  | 0, _ => []
  | fuel + 1, n =>
    if n < 10 then [digitChar n]
    else natToStrAux fuel (n / 10) ++ [digitChar (n % 10)]

/-- Models the JavaScript template interpolation of a numeric exit code:
its decimal numeral. -/
def natToStr (n : Nat) : String := ⟨natToStrAux (n + 1) n⟩

/-! ErrorAggregator: the debounced logger built by `_createDebouncedLogger`.
Its closure state is a string buffer plus the pending `setTimeout` handle;
the handle is modelled by the absolute time at which the pending timer is
due to fire (`none` when no timer is pending). -/

/-- A call `logger(channel, message)` emitted by the aggregator. -/
structure Report where
  channel : String
  message : String
deriving DecidableEq, Repr

/-- Closure state of one debounced logger: `buffer` and the pending
timer's absolute due time. -/
structure AggState where
  buffer : String
  deadline : Option Nat
deriving DecidableEq, Repr

/-- The quiet window of the debounce: `setTimeout(flush, 3000)`. -/
def window : Nat := 3000

/-- The fixed prefix of a flushed report for context name ctx. -/
def header (ctx : String) : String := "❌ " ++ ctx ++ " Errors:\n"

/-- The fixed closing text of a flushed report. -/
def trailer : String := "\n\nPlease fix these issues."

/-- The `flush` closure: if the trimmed buffer is nonempty, emit one
"coder" report `header + buffer.trim() + trailer` and clear the buffer;
otherwise do nothing.  The timer handle is not touched by `flush`. -/
def flush (ctx : String) (s : AggState) : List Report × AggState :=
  if jsTrim s.buffer = "" then ([], s)
  else ([⟨"coder", header ctx ++ jsTrim s.buffer ++ trailer⟩], ⟨"", s.deadline⟩)

/-- The `push` closure at absolute time t: append `data + "\n"` to the
buffer, clear any pending timer and re-arm it for t + window. -/
def pushLine (t : Nat) (data : String) (s : AggState) : AggState :=
  ⟨s.buffer ++ data ++ "\n", some (t + window)⟩

/-- Timer semantics: when execution observes absolute time t, a pending
timer whose due time has passed fires `flush` and is disposed of. -/
def fireIfDue (ctx : String) (t : Nat) (s : AggState) : List Report × AggState :=
  match s.deadline with
  | none => ([], s)
  | some d =>
    if d ≤ t then ((flush ctx s).1, ⟨(flush ctx s).2.buffer, none⟩)
    else ([], s)

/-- The `flushImmediate` closure: `clearTimeout` then `flush`,
independently of how much of the quiet window has elapsed. -/
def flushImmediate (ctx : String) (s : AggState) : List Report × AggState :=
  flush ctx ⟨s.buffer, none⟩

/-- Run a sequence of timed pushes (time, line), with times observed in
order: before each push, a due timer fires first. -/
def runPushes (ctx : String) (s : AggState) : List (Nat × String) → List Report × AggState
  | [] => ([], s)
  | (t, l) :: rest =>
    ((fireIfDue ctx t s).1 ++ (runPushes ctx (pushLine t l (fireIfDue ctx t s).2) rest).1,
     (runPushes ctx (pushLine t l (fireIfDue ctx t s).2) rest).2)

/-- After the last push, let any pending timer fire ("the window finally
elapses"). -/
def settle (ctx : String) (s : AggState) : List Report :=
  match s.deadline with
  | none => []
  | some _ => (flush ctx s).1

/-- All reports produced by a fresh debounced logger fed the given timed
pushes, once the final quiet window has elapsed. -/
def runToQuiescence (ctx : String) (pushes : List (Nat × String)) : List Report :=
  (runPushes ctx ⟨"", none⟩ pushes).1 ++ settle ctx (runPushes ctx ⟨"", none⟩ pushes).2

/-- The concatenation of pushed lines in arrival order, each suffixed with
a newline — the buffer a burst accumulates. -/
def catLines : List (Nat × String) → String
  | [] => ""
  | (_, l) :: rest => l ++ "\n" ++ catLines rest

/-- Time of the first push of a burst. -/
def firstT : List (Nat × String) → Nat
  | [] => 0
  | (t, _) :: _ => t

/-- Time of the last push of a burst. -/
def lastT : List (Nat × String) → Nat
  | [] => 0
  | [(t, _)] => t
  | _ :: rest => lastT rest

/-- A burst: consecutive pushes in time order, each gap strictly below the
quiet window. -/
def Tight (b : List (Nat × String)) : Prop :=
  List.Chain' (fun x y => x.1 ≤ y.1 ∧ y.1 < x.1 + window) b

/-- Consecutive bursts are separated by at least the quiet window. -/
def Gapped (L : List (List (Nat × String))) : Prop :=
  List.Chain' (fun b c => lastT b + window ≤ firstT c) L

/-- The single report a burst flushes into. -/
def mkReport (ctx : String) (b : List (Nat × String)) : Report :=
  ⟨"coder", header ctx ++ jsTrim (catLines b) ++ trailer⟩

/-! PhaseRunner: the retrying `install` loop and the database-push loop
inside `start`, plus the dev-server output wiring.  Each run is driven by
a script of attempts; an attempt carries the timed output chunks the
spawned process produces, the time of its exit, and its exit code.  The
observable behaviour is an event trace. -/

/-- Observable events: a `logger(channel, message)` call, a console line,
a `spawn(cmd, args)`, and an awaited delay in milliseconds. -/
inductive Ev : Type where
  | log (channel : String) (message : String)
  | console (tag : String) (line : String)
  | spawn (cmd : String) (args : List String)
  | wait (ms : Nat)
deriving DecidableEq, Repr

/-- A flushed aggregator report delivered through the logger. -/
def repEv (r : Report) : Ev := .log r.channel r.message

/-- One scripted attempt of a spawned command. -/
structure Attempt where
  chunks : List (Nat × String)
  exitTime : Nat
  exitCode : Nat
deriving DecidableEq, Repr

/-- Classifier of the `install` output handler:
`data.includes('ERR') \|\| data.includes('warn')`. -/
def installMatch (data : String) : Bool :=
  jsIncludes data "ERR" || jsIncludes data "warn"

/-- Classifier of the database-push output handler:
`data.toLowerCase().includes('error') \|\| data.includes('ERR')`. -/
def dbMatch (data : String) : Bool :=
  jsIncludes (jsToLower data) "error" || jsIncludes data "ERR"

/-- Classifier of the dev-server output handler: the five case-sensitive
runtime failure markers. -/
def serverMatch (data : String) : Bool :=
  jsIncludes data "ReferenceError" || jsIncludes data "SyntaxError" ||
  jsIncludes data "Error:" || jsIncludes data "[ERROR]" ||
  jsIncludes data "Failed to resolve"

/-- The `install` WritableStream handler: only classified chunks are
echoed (`console.warn("[NPM]", data)`) and pushed; unclassified chunks
produce nothing. -/
def installWrite (s : AggState) (t : Nat) (data : String) : List Ev × AggState :=
  if installMatch data then
    ((fireIfDue "NPM Install" t s).1.map repEv ++ [.console "[NPM]" data],
     pushLine t data (fireIfDue "NPM Install" t s).2)
  else ((fireIfDue "NPM Install" t s).1.map repEv, (fireIfDue "NPM Install" t s).2)

/-- The database-push handler: every chunk is logged
(`console.log("[DB PUSH]", data)`), classified chunks are also pushed. -/
def dbWrite (s : AggState) (t : Nat) (data : String) : List Ev × AggState :=
  if dbMatch data then
    ((fireIfDue "Database Push" t s).1.map repEv ++ [.console "[DB PUSH]" data],
     pushLine t data (fireIfDue "Database Push" t s).2)
  else ((fireIfDue "Database Push" t s).1.map repEv ++ [.console "[DB PUSH]" data],
        (fireIfDue "Database Push" t s).2)

/-- The dev-server handler: classified chunks are pushed, every chunk is
logged (`console.log("[VM]", data)`). -/
def serverWrite (s : AggState) (t : Nat) (data : String) : List Ev × AggState :=
  if serverMatch data then
    ((fireIfDue "Runtime/Server" t s).1.map repEv ++ [.console "[VM]" data],
     pushLine t data (fireIfDue "Runtime/Server" t s).2)
  else ((fireIfDue "Runtime/Server" t s).1.map repEv ++ [.console "[VM]" data],
        (fireIfDue "Runtime/Server" t s).2)

/-- Feed the timed chunks of one process through an output handler. -/
def runWrites (w : AggState → Nat → String → List Ev × AggState) (s : AggState) :
    List (Nat × String) → List Ev × AggState
  | [] => ([], s)
  | (t, d) :: rest =>
    ((w s t d).1 ++ (runWrites w (w s t d).2 rest).1,
     (runWrites w (w s t d).2 rest).2)

/-- System message emitted when an install attempt exits non-zero. -/
def installFailMsg (c : Nat) : String :=
  "⚠️ npm install failed (code " ++ natToStr c ++ "). Coder notified. Retrying in 10s..."

/-- System message emitted when a database-push attempt exits non-zero. -/
def dbFailMsg (c : Nat) : String :=
  "⚠️ Database push failed (code " ++ natToStr c ++ "). Coder notified. Retrying in 10s..."

/-- One iteration of the `install` retry loop: progress message, a fresh
debounced logger (empty buffer, no timer), spawn, chunk processing, then
the exit branch — on non-zero exit `flushImmediate`, a system warning
naming the exit code, and a 10000 ms wait; on zero exit a success
message. -/
def installAttemptRun (a : Attempt) : List Ev × Bool :=
  if a.exitCode ≠ 0 then
    ([.log "system" "Installing dependencies...", .spawn "npm" ["install"]] ++
       (runWrites installWrite ⟨"", none⟩ a.chunks).1 ++
       (fireIfDue "NPM Install" a.exitTime
         (runWrites installWrite ⟨"", none⟩ a.chunks).2).1.map repEv ++
       (flushImmediate "NPM Install"
         (fireIfDue "NPM Install" a.exitTime
           (runWrites installWrite ⟨"", none⟩ a.chunks).2).2).1.map repEv ++
       [.log "system" (installFailMsg a.exitCode), .wait 10000],
     false)
  else
    ([.log "system" "Installing dependencies...", .spawn "npm" ["install"]] ++
       (runWrites installWrite ⟨"", none⟩ a.chunks).1 ++
       (fireIfDue "NPM Install" a.exitTime
         (runWrites installWrite ⟨"", none⟩ a.chunks).2).1.map repEv ++
       [.log "system" "✅ Dependencies installed."],
     true)

/-- The `while (!success)` loop of `install`, driven by a finite script of
attempts; an exhausted script means the loop is still running. -/
def installLoop : List Attempt → List Ev × Bool
  | [] => ([], false)
  | a :: rest =>
    if (installAttemptRun a).2 then ((installAttemptRun a).1, true)
    else ((installAttemptRun a).1 ++ (installLoop rest).1, (installLoop rest).2)

/-- One iteration of the database-push retry loop inside `start`. -/
def dbAttemptRun (a : Attempt) : List Ev × Bool :=
  if a.exitCode ≠ 0 then
    ([.log "system" "🗄️ Provisioning local SQLite database...",
        .spawn "npm" ["run", "db:push"]] ++
       (runWrites dbWrite ⟨"", none⟩ a.chunks).1 ++
       (fireIfDue "Database Push" a.exitTime
         (runWrites dbWrite ⟨"", none⟩ a.chunks).2).1.map repEv ++
       (flushImmediate "Database Push"
         (fireIfDue "Database Push" a.exitTime
           (runWrites dbWrite ⟨"", none⟩ a.chunks).2).2).1.map repEv ++
       [.log "system" (dbFailMsg a.exitCode), .wait 10000],
     false)
  else
    ([.log "system" "🗄️ Provisioning local SQLite database...",
        .spawn "npm" ["run", "db:push"]] ++
       (runWrites dbWrite ⟨"", none⟩ a.chunks).1 ++
       (fireIfDue "Database Push" a.exitTime
         (runWrites dbWrite ⟨"", none⟩ a.chunks).2).1.map repEv ++
       [.log "system" "✅ Database created successfully!"],
     true)

/-- The `while (!dbSuccess)` loop of `start`. -/
def dbLoop : List Attempt → List Ev × Bool
  | [] => ([], false)
  | a :: rest =>
    if (dbAttemptRun a).2 then ((dbAttemptRun a).1, true)
    else ((dbAttemptRun a).1 ++ (dbLoop rest).1, (dbLoop rest).2)

/-- The dev-server part of `start`: progress message, spawn of
`npm run dev`, then its streamed output through a fresh aggregator. -/
def serverRun (chunks : List (Nat × String)) : List Ev :=
  [.log "system" "🚀 Starting Dev Server...", .spawn "npm" ["run", "dev"]] ++
    (runWrites serverWrite ⟨"", none⟩ chunks).1

/-- The body of `start` after the boot guard: the database loop runs to
completion first; only if it completed does the dev server get spawned. -/
def startRun (dbs : List Attempt) (srv : List (Nat × String)) : List Ev × Bool :=
  if (dbLoop dbs).2 then ((dbLoop dbs).1 ++ serverRun srv, true)
  else ((dbLoop dbs).1, false)

/-- Recognizer of the dev-server spawn event `spawn('npm', ['run', 'dev'])`. -/
def isDevSpawn : Ev → Bool
  | .spawn c args => c == "npm" && args == ["run", "dev"]
  | _ => false

/-! The `WebRunner` object state and the guard behaviour of its public
operations.  `this.instance` is modelled by an optional abstract handle
(the identity of a booted container is irrelevant, a fresh boot yields
handle 0). -/

/-- The fields `this.instance`, `this.url`, `this.shell` of `WebRunner`. -/
structure RunnerState where
  inst : Option Nat
  url : Option String
  shell : Option Nat
deriving DecidableEq, Repr

/-- `boot()`: return the existing instance unchanged if there is one,
otherwise create one. -/
def bootRun (s : RunnerState) : Nat × RunnerState :=
  match s.inst with
  | some h => (h, s)
  | none => (0, { s with inst := some 0 })

/-- The guard of `install`: `if (!this.instance) throw ...`. -/
def installGuard (s : RunnerState) : Except String Unit :=
  match s.inst with
  | none => .error "Container not booted"
  | some _ => .ok ()

/-- The guard of `start`: identical to the install guard. -/
def startGuard (s : RunnerState) : Except String Unit :=
  match s.inst with
  | none => .error "Container not booted"
  | some _ => .ok ()

/-- `writeFile(path, content)`: `if (!this.instance) return;` — a silent
no-op without an error when unbooted, otherwise the performed write. -/
def writeFileRun (s : RunnerState) (path content : String) :
    Except String (Option (String × String)) :=
  match s.inst with
  | none => .ok none
  | some _ => .ok (some (path, content))

/-! Flat-file-to-tree conversion `_convertFilesToTree`.  A JavaScript
object tree is an insertion-ordered association list; a node is either
`\x7bfile: \x7bcontents\x7d\x7d` or `\x7bdirectory: \x7b...\x7d\x7d`. -/

/-- A node of the mount tree. -/
inductive JNode : Type where
  | file (contents : String) : JNode
  | dir (children : List (String × JNode)) : JNode

/-- Property lookup on an object: first binding of the key. -/
def lookupKey : List (String × JNode) → String → Option JNode
  | [], _ => none
  | (k, v) :: t, q => if k = q then some v else lookupKey t q

/-- Property assignment on an object: overwrite in place, else append. -/
def setKey : List (String × JNode) → String → JNode → List (String × JNode)
  | [], q, v => [(q, v)]
  | (k, w) :: t, q, v => if k = q then (q, v) :: t else (k, w) :: setKey t q v

/-- The inner `parts.forEach` of `_convertFilesToTree`: walk the segment
list, writing a file node at the last segment and descending through (or
creating) directory nodes at the earlier ones.  When an earlier segment
already holds a file node the original code reads
`current[part].directory` — which is `undefined` — and the following
iteration's assignment throws; that crash is `none`. -/
def insertPath : List (String × JNode) → List String → String →
    Option (List (String × JNode))
  | _, [], _ => none
  | tree, [p], c => some (setKey tree p (.file c))
  | tree, p :: q :: rest, c =>
    match lookupKey tree p with
    | some (.file _) => none
    | some (.dir sub) =>
      match insertPath sub (q :: rest) c with
      | none => none
      | some sub2 => some (setKey tree p (.dir sub2))
    | none =>
      match insertPath [] (q :: rest) c with
      | none => none
      | some sub2 => some (setKey tree p (.dir sub2))

/-- A flat database file record `(path, content)`; `content` is `none`
when the field is null or missing. -/
structure DbFile where
  path : String
  content : Option String
deriving DecidableEq, Repr

/-- `f.content \|\| ""`. -/
def contentsOf (f : DbFile) : String :=
  match f.content with
  | some c => c
  | none => ""

/-- Models JavaScript `s.split('/')` for the single-character separator:
`""` yields `[""]`, separators at the ends yield empty segments. -/
def splitOnChar (sep : Char) : List Char → List (List Char)
  | [] => [[]]
  | c :: t =>
    if c = sep then [] :: splitOnChar sep t
    else
      match splitOnChar sep t with
      | [] => [[c]]
      | h :: r => (c :: h) :: r

/-- The normalized segment list of a record:
`f.path.replace(/^\/+/, '').split('/')`. -/
def normSegs (f : DbFile) : List String :=
  (splitOnChar '/' (f.path.data.dropWhile (· == '/'))).map String.mk

/-- `_convertFilesToTree(files)`: fold every record into the tree;
`none` when some insertion crashes. -/
def convertFilesToTree (files : List DbFile) : Option (List (String × JNode)) :=
  files.foldlM (fun tree f => insertPath tree (normSegs f) (contentsOf f)) []

/-- Path lookup along a nonempty segment list. -/
def lookupPath : List (String × JNode) → List String → Option JNode
  | _, [] => none
  | tree, [p] => lookupKey tree p
  | tree, p :: q :: rest =>
    match lookupKey tree p with
    | some (.dir sub) => lookupPath sub (q :: rest)
    | _ => none

/-- `mount(flatFiles)`: boots on demand when no instance exists (first
component: the state after `await this.boot()`), then converts and
mounts; a conversion crash propagates as a TypeError, not as a
"Container not booted" error. -/
def mountRun (s : RunnerState) (files : List DbFile) :
    RunnerState × Except String (List (String × JNode)) :=
  ((bootRun s).2,
   match convertFilesToTree files with
   | none => .error "TypeError"
   | some t => .ok t)

theorem strData_append (a b : String) : (a ++ b).data = a.data ++ b.data := by
  cases a; cases b; rfl

theorem strExt {a b : String} (h : a.data = b.data) : a = b := by
  cases a; cases b; exact congrArg String.mk h

theorem str_append_empty (a : String) : a ++ "" = a := by
  apply strExt
  rw [strData_append]
  exact List.append_nil _

theorem str_empty_append (a : String) : "" ++ a = a := by
  apply strExt
  rw [strData_append]
  rfl

theorem str_append_assoc (a b c : String) : a ++ b ++ c = a ++ (b ++ c) := by
  apply strExt
  simp [strData_append, List.append_assoc]

theorem runPushes_append (ctx : String) :
    ∀ (a : List (Nat × String)) (s : AggState) (b : List (Nat × String)),
    runPushes ctx s (a ++ b) =
      ((runPushes ctx s a).1 ++ (runPushes ctx (runPushes ctx s a).2 b).1,
       (runPushes ctx (runPushes ctx s a).2 b).2) := by
  intro a
  induction a with
  | nil => intro s b; simp [runPushes]
  | cons x a ih =>
    intro s b
    obtain ⟨t, l⟩ := x
    simp [runPushes, ih, List.append_assoc]

theorem runPushes_cons (ctx : String) (s : AggState) (t : Nat) (l : String)
    (rest : List (Nat × String)) :
    runPushes ctx s ((t, l) :: rest) =
      ((fireIfDue ctx t s).1 ++ (runPushes ctx (pushLine t l (fireIfDue ctx t s).2) rest).1,
       (runPushes ctx (pushLine t l (fireIfDue ctx t s).2) rest).2) := rfl

theorem runPushes_tight_cons (ctx : String) :
    ∀ (rest : List (Nat × String)) (t : Nat) (l : String) (buf : String) (d : Nat),
    Tight ((t, l) :: rest) → t < d →
    runPushes ctx ⟨buf, some d⟩ ((t, l) :: rest) =
      ([], ⟨buf ++ catLines ((t, l) :: rest), some (lastT ((t, l) :: rest) + window)⟩) := by
  intro rest
  induction rest with
  | nil =>
    intro t l buf d _ htd
    rw [runPushes_cons]
    simp [fireIfDue, if_neg (Nat.not_le.mpr htd), runPushes, pushLine, catLines, lastT,
      str_append_assoc, str_append_empty]
  | cons y rest ih =>
    intro t l buf d hT htd
    obtain ⟨t2, l2⟩ := y
    rw [Tight, List.chain'_cons] at hT
    have hfire : fireIfDue ctx t ⟨buf, some d⟩ = ([], ⟨buf, some d⟩) := by
      simp [fireIfDue, if_neg (Nat.not_le.mpr htd)]
    have hstep := ih t2 l2 (buf ++ l ++ "\n") (t + window) hT.2 hT.1.2
    rw [runPushes_cons, hfire]
    rw [show pushLine t l ⟨buf, some d⟩ =
          (⟨buf ++ l ++ "\n", some (t + window)⟩ : AggState) from rfl, hstep]
    simp [catLines, lastT, str_append_assoc]

theorem runPushes_burst_clean (ctx : String) (b : List (Nat × String))
    (hb : b ≠ []) (hT : Tight b) :
    runPushes ctx ⟨"", none⟩ b = ([], ⟨catLines b, some (lastT b + window)⟩) := by
  match b, hb with
  | (t, l) :: rest, _ =>
    have hfire : fireIfDue ctx t ⟨"", none⟩ = ([], ⟨"", none⟩) := rfl
    cases rest with
    | nil =>
      rw [runPushes_cons, hfire]
      simp [runPushes, pushLine, catLines, lastT, str_empty_append,
        str_append_empty, str_append_assoc]
    | cons y rest' =>
      obtain ⟨t2, l2⟩ := y
      rw [Tight, List.chain'_cons] at hT
      have hstep := runPushes_tight_cons ctx rest' t2 l2 ("" ++ l ++ "\n") (t + window)
        hT.2 hT.1.2
      rw [runPushes_cons, hfire]
      rw [show pushLine t l (⟨"", none⟩ : AggState) =
            (⟨"" ++ l ++ "\n", some (t + window)⟩ : AggState) from rfl, hstep]
      simp [catLines, lastT, str_empty_append, str_append_assoc]

theorem runPushes_burst_pending (ctx : String) (b : List (Nat × String)) (pbuf : String)
    (pd : Nat) (hb : b ≠ []) (hT : Tight b) (hpd : pd ≤ firstT b) (hp : jsTrim pbuf ≠ "") :
    runPushes ctx ⟨pbuf, some pd⟩ b =
      ([⟨"coder", header ctx ++ jsTrim pbuf ++ trailer⟩],
       ⟨catLines b, some (lastT b + window)⟩) := by
  match b, hb with
  | (t, l) :: rest, _ =>
    have hfire : fireIfDue ctx t ⟨pbuf, some pd⟩ =
        ([⟨"coder", header ctx ++ jsTrim pbuf ++ trailer⟩], ⟨"", none⟩) := by
      have hpt : pd ≤ t := hpd
      simp [fireIfDue, if_pos hpt, flush, if_neg hp]
    cases rest with
    | nil =>
      rw [runPushes_cons, hfire]
      simp [runPushes, pushLine, catLines, lastT, str_empty_append,
        str_append_empty, str_append_assoc]
    | cons y rest' =>
      obtain ⟨t2, l2⟩ := y
      rw [Tight, List.chain'_cons] at hT
      have hstep := runPushes_tight_cons ctx rest' t2 l2 ("" ++ l ++ "\n") (t + window)
        hT.2 hT.1.2
      rw [runPushes_cons, hfire]
      rw [show pushLine t l (⟨"", none⟩ : AggState) =
            (⟨"" ++ l ++ "\n", some (t + window)⟩ : AggState) from rfl, hstep]
      simp [catLines, lastT, str_empty_append, str_append_assoc]

theorem runPushes_bursts_pending (ctx : String) :
    ∀ (L : List (List (Nat × String))) (b : List (Nat × String)) (pbuf : String) (pd : Nat),
    (∀ x ∈ b :: L, x ≠ []) → (∀ x ∈ b :: L, Tight x) →
    (∀ x ∈ b :: L, jsTrim (catLines x) ≠ "") → Gapped (b :: L) →
    pd ≤ firstT b → jsTrim pbuf ≠ "" →
    runPushes ctx ⟨pbuf, some pd⟩ (b :: L).flatten =
      (⟨"coder", header ctx ++ jsTrim pbuf ++ trailer⟩ ::
        ((b :: L).dropLast).map (mkReport ctx),
       ⟨catLines ((b :: L).getLast (List.cons_ne_nil b L)),
        some (lastT ((b :: L).getLast (List.cons_ne_nil b L)) + window)⟩) := by
  intro L
  induction L with
  | nil =>
    intro b pbuf pd hne hT _ _ hpd hp
    have h1 := runPushes_burst_pending ctx b pbuf pd (hne b (by simp)) (hT b (by simp)) hpd hp
    simp [List.flatten, h1]
  | cons b2 L ih =>
    intro b pbuf pd hne hT htr hg hpd hp
    rw [Gapped, List.chain'_cons] at hg
    have h1 := runPushes_burst_pending ctx b pbuf pd (hne b (by simp)) (hT b (by simp)) hpd hp
    have h2 := ih b2 (catLines b) (lastT b + window)
      (fun x hx => hne x (by simp at hx ⊢; tauto))
      (fun x hx => hT x (by simp at hx ⊢; tauto))
      (fun x hx => htr x (by simp at hx ⊢; tauto))
      hg.2 hg.1 (htr b (by simp))
    have hjoin : (b :: b2 :: L).flatten = b ++ (b2 :: L).flatten := by simp [List.flatten]
    rw [hjoin, runPushes_append, h1]
    simp only [h2]
    simp [mkReport, List.getLast_cons]

theorem runPushes_bursts_clean (ctx : String) (L : List (List (Nat × String)))
    (b : List (Nat × String))
    (hne : ∀ x ∈ b :: L, x ≠ []) (hT : ∀ x ∈ b :: L, Tight x)
    (htr : ∀ x ∈ b :: L, jsTrim (catLines x) ≠ "") (hg : Gapped (b :: L)) :
    runPushes ctx ⟨"", none⟩ (b :: L).flatten =
      (((b :: L).dropLast).map (mkReport ctx),
       ⟨catLines ((b :: L).getLast (List.cons_ne_nil b L)),
        some (lastT ((b :: L).getLast (List.cons_ne_nil b L)) + window)⟩) := by
  cases L with
  | nil =>
    have h1 := runPushes_burst_clean ctx b (hne b (by simp)) (hT b (by simp))
    simp [List.flatten, h1]
  | cons b2 L' =>
    rw [Gapped, List.chain'_cons] at hg
    have h1 := runPushes_burst_clean ctx b (hne b (by simp)) (hT b (by simp))
    have h2 := runPushes_bursts_pending ctx L' b2 (catLines b) (lastT b + window)
      (fun x hx => hne x (by simp at hx ⊢; tauto))
      (fun x hx => hT x (by simp at hx ⊢; tauto))
      (fun x hx => htr x (by simp at hx ⊢; tauto))
      hg.2 hg.1 (htr b (by simp))
    have hjoin : (b :: b2 :: L').flatten = b ++ (b2 :: L').flatten := by simp [List.flatten]
    rw [hjoin, runPushes_append, h1]
    simp only [h2]
    simp [mkReport, List.getLast_cons]

theorem runToQuiescence_bursts (ctx : String) (L : List (List (Nat × String)))
    (hne : ∀ x ∈ L, x ≠ []) (hT : ∀ x ∈ L, Tight x)
    (htr : ∀ x ∈ L, jsTrim (catLines x) ≠ "") (hg : Gapped L) :
    runToQuiescence ctx L.flatten = L.map (mkReport ctx) := by
  cases L with
  | nil => rfl
  | cons b L' =>
    have hrun := runPushes_bursts_clean ctx L' b hne hT htr hg
    have hmem := List.getLast_mem (List.cons_ne_nil b L')
    rw [runToQuiescence, hrun]
    have hsettle : settle ctx
        ⟨catLines ((b :: L').getLast (List.cons_ne_nil b L')),
         some (lastT ((b :: L').getLast (List.cons_ne_nil b L')) + window)⟩ =
        [mkReport ctx ((b :: L').getLast (List.cons_ne_nil b L'))] := by
      simp [settle, flush, if_neg (htr _ hmem), mkReport]
    rw [hsettle]
    conv_rhs => rw [← List.dropLast_append_getLast (List.cons_ne_nil b L')]
    rw [List.map_append]
    rfl

/-- Claim C1, counterexample to the claim as stated.  Two discrepancies:
first, a burst consisting of one pushed empty line emits zero reports when
the window elapses, not exactly one (the flush drops a buffer that trims
to the empty string); second, an emitted report's message is not the fixed
header followed by the trimmed concatenation of the pushed lines — the
code appends the further fixed text "\n\nPlease fix these issues.". -/
theorem c1_counterexample :
    runToQuiescence "NPM Install" [(0, "")] = [] ∧
    runToQuiescence "NPM Install" [(0, "boom")] =
      [⟨"coder", "❌ NPM Install Errors:\nboom\n\nPlease fix these issues."⟩] ∧
    "❌ NPM Install Errors:\nboom\n\nPlease fix these issues." ≠
      header "NPM Install" ++ jsTrim (catLines [(0, "boom")]) := by
  exact ⟨by decide, by decide, by decide⟩

/-- Claim C1 (amended): for every partition of the pushed lines into
nonempty bursts whose internal gaps are below the quiet window, whose
boundary gaps are at least the window, and whose concatenated lines do not
trim to the empty string, the debounced logger emits exactly one report
per burst, in order; each report's message is the fixed header followed by
the trimmed concatenation of the burst's lines (each suffixed "\n", in
arrival order) followed by the fixed closing text. -/
theorem c1_debounce_batching (ctx : String) (L : List (List (Nat × String)))
    (hne : ∀ x ∈ L, x ≠ []) (hT : ∀ x ∈ L, Tight x)
    (htr : ∀ x ∈ L, jsTrim (catLines x) ≠ "") (hg : Gapped L) :
    runToQuiescence ctx L.flatten = L.map (mkReport ctx) :=
  runToQuiescence_bursts ctx L hne hT htr hg

/-- Claim C1, witness: two pushes one second apart form a single burst and
flush into exactly one report. -/
theorem c1_debounce_batching_witness :
    Tight [(0, "err one"), (1000, "err two")] ∧
    runToQuiescence "NPM Install" [[(0, "err one"), (1000, "err two")]].flatten =
      [mkReport "NPM Install" [(0, "err one"), (1000, "err two")]] := by
  refine ⟨?_, c1_debounce_batching "NPM Install" _ ?_ ?_ ?_ ?_⟩
  · rw [Tight, List.chain'_cons]
    exact ⟨⟨by decide, by decide⟩, List.chain'_singleton _⟩
  · intro x hx
    simp only [List.mem_singleton] at hx
    subst hx; decide
  · intro x hx
    simp only [List.mem_singleton] at hx
    subst hx
    rw [Tight, List.chain'_cons]
    exact ⟨⟨by decide, by decide⟩, List.chain'_singleton _⟩
  · intro x hx
    simp only [List.mem_singleton] at hx
    subst hx; decide
  · rw [Gapped]; exact List.chain'_singleton _

/-- Claim C6: `flushImmediate()` cancels any pending quiet-window timer,
behaves identically whatever the pending timer state was (so in particular
whether or not the window has elapsed), and when the buffer holds
non-whitespace content it synchronously emits that buffered content as a
single report, so no buffered failure output is lost at a retry boundary. -/
theorem c6_flush_immediate (ctx : String) (s : AggState) :
    (flushImmediate ctx s).2.deadline = none ∧
    (∀ d : Option Nat, flushImmediate ctx ⟨s.buffer, d⟩ = flushImmediate ctx s) ∧
    (jsTrim s.buffer ≠ "" →
      flushImmediate ctx s =
        ([⟨"coder", header ctx ++ jsTrim s.buffer ++ trailer⟩], ⟨"", none⟩)) := by
  refine ⟨?_, fun d => rfl, fun h => by simp [flushImmediate, flush, h]⟩
  by_cases h : jsTrim s.buffer = "" <;> simp [flushImmediate, flush, h]

/-- Claim C6, witness: a buffer with content and a live timer is flushed
at once into one report carrying that content, with the timer cancelled. -/
theorem c6_flush_immediate_witness :
    jsTrim ("boom\n" : String) ≠ "" ∧
    flushImmediate "NPM Install" ⟨"boom\n", some 42⟩ =
      ([⟨"coder", header "NPM Install" ++ jsTrim "boom\n" ++ trailer⟩], ⟨"", none⟩) :=
  ⟨by decide, (c6_flush_immediate "NPM Install" ⟨"boom\n", some 42⟩).2.2 (by decide)⟩

/-- Claim C7, counterexample to the claim as stated: an emitted report's
message is not the header plus the trimmed buffer — the code appends the
further fixed text "\n\nPlease fix these issues." after the buffer. -/
theorem c7_counterexample :
    (flush "Database Push" ⟨"fail\n", none⟩).1 =
      [⟨"coder", "❌ Database Push Errors:\nfail\n\nPlease fix these issues."⟩] ∧
    "❌ Database Push Errors:\nfail\n\nPlease fix these issues." ≠
      header "Database Push" ++ jsTrim "fail\n" :=
  ⟨by decide, by decide⟩

/-- Claim C7 (amended): a timer firing or a `flushImmediate()` call on an
empty buffer emits no report; every report that is emitted goes out on the
"coder" channel with message equal to the header plus the trimmed buffer
plus the fixed closing text, and the buffer is cleared alongside. -/
theorem c7_flush_reports (ctx : String) (s : AggState) :
    (s.buffer = "" → (∀ t, (fireIfDue ctx t s).1 = []) ∧ (flushImmediate ctx s).1 = []) ∧
    (∀ r ∈ (flush ctx s).1,
      r.channel = "coder" ∧
      r.message = header ctx ++ jsTrim s.buffer ++ trailer ∧
      (flush ctx s).2.buffer = "") := by
  constructor
  · intro hbuf
    have ht : jsTrim s.buffer = "" := by rw [hbuf]; rfl
    constructor
    · intro t
      rcases s with ⟨buf, dl⟩
      cases dl with
      | none => rfl
      | some d =>
        simp only [fireIfDue, flush, ht, if_pos rfl]
        split <;> rfl
    · simp [flushImmediate, flush, ht]
  · intro r hr
    by_cases h : jsTrim s.buffer = ""
    · simp [flush, h] at hr
    · simp [flush, h] at hr
      subst hr
      exact ⟨rfl, rfl, by simp [flush, h]⟩

/-- Claim C7, witness: no report from an empty buffer; the concrete report
flushed from buffer "boom\n" goes out on the "coder" channel. -/
theorem c7_flush_reports_witness :
    (flushImmediate "NPM Install" ⟨"", some 7⟩).1 = [] ∧
    (⟨"coder",
       header "NPM Install" ++ jsTrim "boom\n" ++ trailer⟩ : Report).channel = "coder" :=
  ⟨((c7_flush_reports "NPM Install" ⟨"", some 7⟩).1 rfl).2,
   ((c7_flush_reports "NPM Install" ⟨"boom\n", none⟩).2 _ (by decide)).1⟩

theorem preChars_self_append : ∀ (q r : List Char), preChars q (q ++ r) = true := by
  intro q
  induction q with
  | nil => intro r; rfl
  | cons a q ih => intro r; simp [preChars, ih]

theorem subChars_nil_pat : ∀ l : List Char, subChars l [] = true := by
  intro l
  cases l <;> rfl

theorem subChars_sandwich : ∀ (p q r : List Char), subChars (p ++ q ++ r) q = true := by
  intro p
  induction p with
  | nil =>
    intro q r
    cases q with
    | nil => simpa using subChars_nil_pat r
    | cons b q' =>
      show (preChars (b :: q') (b :: (q' ++ r)) || subChars (q' ++ r) (b :: q')) = true
      have h := preChars_self_append (b :: q') r
      simp only [List.cons_append] at h
      simp [h]
  | cons a p ih =>
    intro q r
    show (preChars q (a :: (p ++ q ++ r)) || subChars (p ++ q ++ r) q) = true
    rw [Bool.or_eq_true]
    exact Or.inr (ih q r)

theorem jsIncludes_sandwich (pre mid suf : String) :
    jsIncludes (pre ++ mid ++ suf) mid = true := by
  rw [jsIncludes, strData_append, strData_append]
  exact subChars_sandwich pre.data mid.data suf.data

theorem installAttemptRun_snd (a : Attempt) :
    (installAttemptRun a).2 = (a.exitCode == 0) := by
  by_cases h : a.exitCode = 0 <;> simp [installAttemptRun, h]

theorem dbAttemptRun_snd (a : Attempt) :
    (dbAttemptRun a).2 = (a.exitCode == 0) := by
  by_cases h : a.exitCode = 0 <;> simp [dbAttemptRun, h]

theorem installLoop_true_iff : ∀ l : List Attempt,
    (installLoop l).2 = true ↔ ∃ a ∈ l, a.exitCode = 0 := by
  intro l
  induction l with
  | nil => simp [installLoop]
  | cons a rest ih =>
    by_cases h : a.exitCode = 0
    · simp [installLoop, installAttemptRun_snd, h]
    · simp [installLoop, installAttemptRun_snd, h, ih]

theorem dbLoop_true_iff : ∀ l : List Attempt,
    (dbLoop l).2 = true ↔ ∃ a ∈ l, a.exitCode = 0 := by
  intro l
  induction l with
  | nil => simp [dbLoop]
  | cons a rest ih =>
    by_cases h : a.exitCode = 0
    · simp [dbLoop, dbAttemptRun_snd, h]
    · simp [dbLoop, dbAttemptRun_snd, h, ih]

theorem repEv_not_dev (r : Report) : isDevSpawn (repEv r) = false := rfl

theorem map_repEv_no_dev {e : Ev} {l : List Report} (he : e ∈ l.map repEv) :
    isDevSpawn e = false := by
  obtain ⟨r, _, rfl⟩ := List.mem_map.mp he
  rfl

theorem dbWrite_no_dev (s : AggState) (t : Nat) (d : String) :
    ∀ e ∈ (dbWrite s t d).1, isDevSpawn e = false := by
  intro e he
  by_cases h : dbMatch d = true <;>
    simp [dbWrite, h] at he <;>
    rcases he with he | he
  · exact map_repEv_no_dev (List.mem_map.mpr (by simpa using he))
  · subst he; rfl
  · exact map_repEv_no_dev (List.mem_map.mpr (by simpa using he))
  · subst he; rfl

theorem runWrites_no_dev (w : AggState → Nat → String → List Ev × AggState)
    (hw : ∀ s t d, ∀ e ∈ (w s t d).1, isDevSpawn e = false) :
    ∀ (chunks : List (Nat × String)) (s : AggState),
    ∀ e ∈ (runWrites w s chunks).1, isDevSpawn e = false := by
  intro chunks
  induction chunks with
  | nil => intro s e he; simp [runWrites] at he
  | cons x rest ih =>
    intro s e he
    obtain ⟨t, d⟩ := x
    rw [show runWrites w s ((t, d) :: rest) =
          ((w s t d).1 ++ (runWrites w (w s t d).2 rest).1,
           (runWrites w (w s t d).2 rest).2) from rfl] at he
    rcases List.mem_append.mp he with h1 | h1
    · exact hw s t d e h1
    · exact ih (w s t d).2 e h1

theorem no_dev_append {l1 l2 : List Ev} (h1 : ∀ e ∈ l1, isDevSpawn e = false)
    (h2 : ∀ e ∈ l2, isDevSpawn e = false) : ∀ e ∈ l1 ++ l2, isDevSpawn e = false := by
  intro e he
  rcases List.mem_append.mp he with h | h
  exacts [h1 e h, h2 e h]

theorem no_dev_pair {a b : Ev} (ha : isDevSpawn a = false) (hb : isDevSpawn b = false) :
    ∀ e ∈ [a, b], isDevSpawn e = false := by
  intro e he
  rcases List.mem_cons.mp he with rfl | he
  · exact ha
  rcases List.mem_singleton.mp he with rfl
  exact hb

theorem no_dev_single {a : Ev} (ha : isDevSpawn a = false) :
    ∀ e ∈ [a], isDevSpawn e = false := by
  intro e he
  rcases List.mem_singleton.mp he with rfl
  exact ha

theorem no_dev_map (l : List Report) : ∀ e ∈ l.map repEv, isDevSpawn e = false :=
  fun _ he => map_repEv_no_dev he

theorem dbAttemptRun_no_dev (a : Attempt) :
    ∀ e ∈ (dbAttemptRun a).1, isDevSpawn e = false := by
  by_cases h : a.exitCode = 0
  · rw [dbAttemptRun, if_neg (not_not_intro h)]
    exact no_dev_append (no_dev_append (no_dev_append
      (no_dev_pair rfl (by decide))
      (runWrites_no_dev dbWrite dbWrite_no_dev a.chunks ⟨"", none⟩))
      (no_dev_map _))
      (no_dev_single rfl)
  · rw [dbAttemptRun, if_pos h]
    exact no_dev_append (no_dev_append (no_dev_append (no_dev_append
      (no_dev_pair rfl (by decide))
      (runWrites_no_dev dbWrite dbWrite_no_dev a.chunks ⟨"", none⟩))
      (no_dev_map _))
      (no_dev_map _))
      (no_dev_pair rfl rfl)

theorem dbLoop_no_dev : ∀ l : List Attempt, ∀ e ∈ (dbLoop l).1, isDevSpawn e = false := by
  intro l
  induction l with
  | nil => intro e he; simp [dbLoop] at he
  | cons a rest ih =>
    intro e he
    by_cases h : (dbAttemptRun a).2 = true
    · simp only [dbLoop, h, if_pos] at he
      exact dbAttemptRun_no_dev a e he
    · simp only [dbLoop, h, if_neg, Bool.not_eq_true, ite_false] at he
      rcases List.mem_append.mp he with h1 | h1
      · exact dbAttemptRun_no_dev a e h1
      · exact ih e h1

/-- Claim C2: a phase attempt (install or database push) that exits
non-zero flushes its aggregator via `flushImmediate`, emits a system
message naming the exit code, waits the fixed 10000 ms delay, and the loop
then re-runs the command with a freshly created aggregator (the next
attempt's chunk processing starts from the empty state `⟨"", none⟩`);
the loop has no retry cap and completes exactly when some attempt exits
with code zero. -/
theorem c2_retry_loop :
    (∀ (a : Attempt) (rest : List Attempt), a.exitCode ≠ 0 →
      installLoop (a :: rest) =
        ([.log "system" "Installing dependencies...", .spawn "npm" ["install"]] ++
           (runWrites installWrite ⟨"", none⟩ a.chunks).1 ++
           (fireIfDue "NPM Install" a.exitTime
             (runWrites installWrite ⟨"", none⟩ a.chunks).2).1.map repEv ++
           (flushImmediate "NPM Install"
             (fireIfDue "NPM Install" a.exitTime
               (runWrites installWrite ⟨"", none⟩ a.chunks).2).2).1.map repEv ++
           [.log "system" (installFailMsg a.exitCode), .wait 10000] ++
           (installLoop rest).1,
         (installLoop rest).2)) ∧
    (∀ (a : Attempt) (rest : List Attempt), a.exitCode ≠ 0 →
      dbLoop (a :: rest) =
        ([.log "system" "🗄️ Provisioning local SQLite database...",
            .spawn "npm" ["run", "db:push"]] ++
           (runWrites dbWrite ⟨"", none⟩ a.chunks).1 ++
           (fireIfDue "Database Push" a.exitTime
             (runWrites dbWrite ⟨"", none⟩ a.chunks).2).1.map repEv ++
           (flushImmediate "Database Push"
             (fireIfDue "Database Push" a.exitTime
               (runWrites dbWrite ⟨"", none⟩ a.chunks).2).2).1.map repEv ++
           [.log "system" (dbFailMsg a.exitCode), .wait 10000] ++
           (dbLoop rest).1,
         (dbLoop rest).2)) ∧
    (∀ l : List Attempt, (installLoop l).2 = true ↔ ∃ a ∈ l, a.exitCode = 0) ∧
    (∀ l : List Attempt, (dbLoop l).2 = true ↔ ∃ a ∈ l, a.exitCode = 0) ∧
    (∀ c : Nat, jsIncludes (installFailMsg c) (natToStr c) = true) ∧
    (∀ c : Nat, jsIncludes (dbFailMsg c) (natToStr c) = true) := by
  refine ⟨?_, ?_, installLoop_true_iff, dbLoop_true_iff,
    fun c => jsIncludes_sandwich _ (natToStr c) _,
    fun c => jsIncludes_sandwich _ (natToStr c) _⟩
  · intro a rest h
    have h2 : ¬ (installAttemptRun a).2 = true := by
      simp [installAttemptRun_snd, h]
    rw [installLoop, if_neg h2, installAttemptRun, if_pos h]
  · intro a rest h
    have h2 : ¬ (dbAttemptRun a).2 = true := by
      simp [dbAttemptRun_snd, h]
    rw [dbLoop, if_neg h2, dbAttemptRun, if_pos h]

/-- Claim C5: in `start`, the dev-server spawn occurs only after the
database-push loop has completed (no event of the database loop is the
dev-server spawn, the server part is appended only when the loop
succeeded), and the loop succeeds exactly when some provisioning attempt
exits with code zero, however many attempts failed first. -/
theorem c5_phase_order (dbs : List Attempt) (srv : List (Nat × String)) :
    ((dbLoop dbs).2 = true →
      startRun dbs srv = ((dbLoop dbs).1 ++ serverRun srv, true)) ∧
    ((dbLoop dbs).2 = false → startRun dbs srv = ((dbLoop dbs).1, false)) ∧
    (∀ e ∈ (dbLoop dbs).1, isDevSpawn e = false) ∧
    ((dbLoop dbs).2 = true ↔ ∃ a ∈ dbs, a.exitCode = 0) :=
  ⟨fun h => by rw [startRun, if_pos h],
   fun h => by rw [startRun, if_neg (by simp [h])],
   dbLoop_no_dev dbs, dbLoop_true_iff dbs⟩

/-- Claim C5, witness: one failed provisioning attempt followed by a
successful one still puts the dev-server spawn strictly after the
completed database loop. -/
theorem c5_phase_order_witness :
    (dbLoop [⟨[], 0, 1⟩, ⟨[], 0, 0⟩]).2 = true ∧
    startRun [⟨[], 0, 1⟩, ⟨[], 0, 0⟩] [(0, "ready")] =
      ((dbLoop [⟨[], 0, 1⟩, ⟨[], 0, 0⟩]).1 ++ serverRun [(0, "ready")], true) :=
  ⟨by decide, (c5_phase_order [⟨[], 0, 1⟩, ⟨[], 0, 0⟩] [(0, "ready")]).1 (by decide)⟩

/-- Claim C3, counterexample to the claim as stated: in the install phase
the line "error: cannot find module" matches the case-insensitive `error`
marker, yet it is neither pushed into the aggregator (the state is
returned unchanged) nor passed to any log (the handler emits no event at
all — `console.warn` sits inside the classification branch). -/
theorem c3_counterexample :
    jsIncludes (jsToLower "error: cannot find module") "error" = true ∧
    installWrite ⟨"", none⟩ 0 "error: cannot find module" = ([], ⟨"", none⟩) :=
  ⟨by decide, by decide⟩

/-- Claim C3 (amended): each phase pushes a line into its aggregator
exactly when its own markers match — install: `ERR` or `warn`
(case-sensitive); database push: case-insensitive `error` or `ERR`;
dev server: the five case-sensitive runtime markers — and every line
passes to the plain console log in the database and server phases,
while the install phase echoes only classified lines. -/
theorem c3_classification (s : AggState) (t : Nat) (data : String) :
    (installMatch data = true →
      (installWrite s t data).2.buffer =
        (fireIfDue "NPM Install" t s).2.buffer ++ data ++ "\n" ∧
      Ev.console "[NPM]" data ∈ (installWrite s t data).1) ∧
    (installMatch data = false →
      (installWrite s t data).2 = (fireIfDue "NPM Install" t s).2 ∧
      ∀ tag : String, Ev.console tag data ∉ (installWrite s t data).1) ∧
    Ev.console "[DB PUSH]" data ∈ (dbWrite s t data).1 ∧
    (dbMatch data = true →
      (dbWrite s t data).2.buffer =
        (fireIfDue "Database Push" t s).2.buffer ++ data ++ "\n") ∧
    (dbMatch data = false →
      (dbWrite s t data).2 = (fireIfDue "Database Push" t s).2) ∧
    Ev.console "[VM]" data ∈ (serverWrite s t data).1 ∧
    (serverMatch data = true →
      (serverWrite s t data).2.buffer =
        (fireIfDue "Runtime/Server" t s).2.buffer ++ data ++ "\n") ∧
    (serverMatch data = false →
      (serverWrite s t data).2 = (fireIfDue "Runtime/Server" t s).2) ∧
    (jsIncludes (jsToLower data) "error" = true → dbMatch data = true) := by
  refine ⟨?_, ?_, ?_, ?_, ?_, ?_, ?_, ?_, ?_⟩
  · intro h
    refine ⟨by simp [installWrite, h, pushLine], ?_⟩
    simp [installWrite, h]
  · intro h
    refine ⟨by simp [installWrite, h], ?_⟩
    intro tag hmem
    simp only [installWrite, h, ite_false, Bool.false_eq_true] at hmem
    obtain ⟨r, _, heq⟩ := List.mem_map.mp hmem
    simp [repEv] at heq
  · by_cases h : dbMatch data = true <;> simp [dbWrite, h]
  · intro h; simp [dbWrite, h, pushLine]
  · intro h; simp [dbWrite, h]
  · by_cases h : serverMatch data = true <;> simp [serverWrite, h]
  · intro h; simp [serverWrite, h, pushLine]
  · intro h; simp [serverWrite, h]
  · intro h; simp [dbMatch, h]

/-- Claim C3, witness: an install chunk containing `ERR` is classified,
echoed as `[NPM]` console output, and appended to the aggregator buffer. -/
theorem c3_classification_witness :
    installMatch "npm ERR! missing" = true ∧
    Ev.console "[NPM]" "npm ERR! missing" ∈
      (installWrite ⟨"", none⟩ 0 "npm ERR! missing").1 :=
  ⟨by decide, ((c3_classification ⟨"", none⟩ 0 "npm ERR! missing").1 (by decide)).2⟩

/-- Claim C2, witness: one failing install attempt (classified output
"npm ERR! boom", exit code 1) is flushed and reported, the system warning
names code 1, the 10000 ms wait follows, and the second attempt starts
afresh and completes the phase on exit code 0. -/
theorem c2_retry_loop_witness :
    ((⟨[(0, "npm ERR! boom")], 4000, 1⟩ : Attempt).exitCode ≠ 0) ∧
    installLoop [⟨[(0, "npm ERR! boom")], 4000, 1⟩, ⟨[], 0, 0⟩] =
      ([.log "system" "Installing dependencies...",
        .spawn "npm" ["install"],
        .console "[NPM]" "npm ERR! boom",
        .log "coder" "❌ NPM Install Errors:\nnpm ERR! boom\n\nPlease fix these issues.",
        .log "system" "⚠️ npm install failed (code 1). Coder notified. Retrying in 10s...",
        .wait 10000,
        .log "system" "Installing dependencies...",
        .spawn "npm" ["install"],
        .log "system" "✅ Dependencies installed."],
       true) :=
  ⟨by decide,
   (c2_retry_loop.1 ⟨[(0, "npm ERR! boom")], 4000, 1⟩ [⟨[], 0, 0⟩] (by decide)).trans
     (by decide)⟩

/-- Claim C4, counterexample to the claim as stated: on an unbooted
runner, `writeFile` does not raise — it silently returns with no write
performed — and `mount` does not raise either: it boots the sandbox on
demand (observable partial progress) and proceeds. -/
theorem c4_counterexample :
    writeFileRun ⟨none, none, none⟩ "index.js" "x" = .ok none ∧
    (mountRun ⟨none, none, none⟩ []).1.inst = some 0 ∧
    (mountRun ⟨none, none, none⟩ []).2 = .ok [] :=
  ⟨rfl, rfl, rfl⟩

/-- Claim C4 (amended): on an unbooted runner, `install` and `start`
raise the "Container not booted" error immediately; `writeFile` silently
returns without writing and without an error; `mount` boots the sandbox
on demand instead of raising. -/
theorem c4_unbooted_behavior (s : RunnerState) (h : s.inst = none)
    (p c : String) (files : List DbFile) :
    installGuard s = .error "Container not booted" ∧
    startGuard s = .error "Container not booted" ∧
    writeFileRun s p c = .ok none ∧
    (mountRun s files).1.inst = some 0 := by
  rcases s with ⟨i, u, sh⟩
  cases h
  exact ⟨rfl, rfl, rfl, rfl⟩

/-- Claim C4, witness: the amended behaviour at the freshly constructed
runner state. -/
theorem c4_unbooted_behavior_witness :
    (⟨none, none, none⟩ : RunnerState).inst = none ∧
    installGuard ⟨none, none, none⟩ = .error "Container not booted" ∧
    startGuard ⟨none, none, none⟩ = .error "Container not booted" :=
  ⟨rfl, (c4_unbooted_behavior ⟨none, none, none⟩ rfl "a" "b" []).1,
   (c4_unbooted_behavior ⟨none, none, none⟩ rfl "a" "b" []).2.1⟩

/-- Claim C8: `boot()` is idempotent — when an instance already exists it
returns that handle and leaves the whole runner state (instance, url,
shell) unchanged. -/
theorem c8_boot_idempotent (s : RunnerState) (hd : Nat) (h : s.inst = some hd) :
    bootRun s = (hd, s) := by
  rcases s with ⟨i, u, sh⟩
  cases h
  rfl

/-- Claim C8, witness: booting an already-booted runner with handle 5
returns handle 5 and the unchanged state. -/
theorem c8_boot_idempotent_witness :
    (⟨some 5, some "http://localhost", some 9⟩ : RunnerState).inst = some 5 ∧
    bootRun ⟨some 5, some "http://localhost", some 9⟩ =
      (5, ⟨some 5, some "http://localhost", some 9⟩) :=
  ⟨rfl, c8_boot_idempotent ⟨some 5, some "http://localhost", some 9⟩ 5 rfl⟩

theorem lookupKey_setKey :
    ∀ (t : List (String × JNode)) (k : String) (v : JNode) (q : String),
    lookupKey (setKey t k v) q = if k = q then some v else lookupKey t q := by
  intro t
  induction t with
  | nil => intro k v q; simp [setKey, lookupKey]
  | cons x t ih =>
    intro k v q
    obtain ⟨k2, w⟩ := x
    by_cases h1 : k2 = k
    · subst h1
      rw [setKey, if_pos rfl]
      by_cases h2 : k2 = q
      · subst h2; simp [lookupKey]
      · simp [lookupKey, h2]
    · rw [setKey, if_neg h1]
      by_cases h2 : k2 = q
      · subst h2
        have h3 : ¬ k = k2 := fun he => h1 he.symm
        simp [lookupKey, h3]
      · simp [lookupKey, h2, ih]

theorem lookupPath_nil : ∀ q : List String, lookupPath [] q = none := by
  intro q
  match q with
  | [] => rfl
  | [p] => rfl
  | p :: q :: r => rfl

theorem lookupPath_one (t : List (String × JNode)) (x : String) :
    lookupPath t [x] = lookupKey t x := rfl

theorem lookupPath_cons_dir {tree : List (String × JNode)} {p : String}
    {sub : List (String × JNode)} (h : lookupKey tree p = some (.dir sub)) :
    ∀ {rest : List String}, rest ≠ [] → lookupPath tree (p :: rest) = lookupPath sub rest := by
  intro rest hne
  match rest, hne with
  | y :: r, _ =>
    show (match lookupKey tree p with
          | some (.dir sub) => lookupPath sub (y :: r)
          | _ => none) = _
    rw [h]

theorem lookupPath_cons_congr {t1 t2 : List (String × JNode)} {x : String}
    (hkey : lookupKey t1 x = lookupKey t2 x) (y : String) (r : List String) :
    lookupPath t1 (x :: y :: r) = lookupPath t2 (x :: y :: r) := by
  simp only [lookupPath]
  rw [hkey]

theorem insert_lookup_self :
    ∀ (ps : List String) (tree : List (String × JNode)) (c : String)
      (t2 : List (String × JNode)),
    insertPath tree ps c = some t2 → lookupPath t2 ps = some (.file c) := by
  intro ps
  induction ps with
  | nil => intro tree c t2 h; exact absurd h (by simp [insertPath])
  | cons p ps ih =>
    intro tree c t2 h
    cases ps with
    | nil =>
      rw [insertPath] at h
      obtain rfl := Option.some.inj h
      rw [lookupPath_one, lookupKey_setKey, if_pos rfl]
    | cons q rest =>
      cases hl : lookupKey tree p with
      | none =>
        cases hins : insertPath [] (q :: rest) c with
        | none => simp only [insertPath, hl, hins] at h; cases h
        | some sub2 =>
          simp only [insertPath, hl, hins, Option.some.injEq] at h
          subst h
          have hkey : lookupKey (setKey tree p (.dir sub2)) p = some (.dir sub2) := by
            rw [lookupKey_setKey, if_pos rfl]
          rw [lookupPath_cons_dir hkey (List.cons_ne_nil q rest)]
          exact ih [] c sub2 hins
      | some node =>
        cases node with
        | file f0 => simp only [insertPath, hl] at h; cases h
        | dir sub =>
          cases hins : insertPath sub (q :: rest) c with
          | none => simp only [insertPath, hl, hins] at h; cases h
          | some sub2 =>
            simp only [insertPath, hl, hins, Option.some.injEq] at h
            subst h
            have hkey : lookupKey (setKey tree p (.dir sub2)) p = some (.dir sub2) := by
              rw [lookupKey_setKey, if_pos rfl]
            rw [lookupPath_cons_dir hkey (List.cons_ne_nil q rest)]
            exact ih sub c sub2 hins

theorem insert_prefix_dir :
    ∀ (pre : List String) (tree : List (String × JNode)) (suf : List String) (c : String)
      (t2 : List (String × JNode)),
    insertPath tree (pre ++ suf) c = some t2 → pre ≠ [] → suf ≠ [] →
    ∃ sub, lookupPath t2 pre = some (.dir sub) := by
  intro pre
  induction pre with
  | nil => intro tree suf c t2 _ hne _; exact absurd rfl hne
  | cons p pre ih =>
    intro tree suf c t2 h _ hsuf
    cases pre with
    | nil =>
      match suf, hsuf with
      | q :: rest, _ =>
        cases hl : lookupKey tree p with
        | none =>
          cases hins : insertPath [] (q :: rest) c with
          | none =>
            simp only [List.cons_append, List.nil_append, insertPath, hl, hins] at h
            cases h
          | some sub2 =>
            simp only [List.cons_append, List.nil_append, insertPath, hl, hins,
              Option.some.injEq] at h
            subst h
            exact ⟨sub2, by rw [lookupPath_one, lookupKey_setKey, if_pos rfl]⟩
        | some node =>
          cases node with
          | file f0 =>
            simp only [List.cons_append, List.nil_append, insertPath, hl] at h
            cases h
          | dir sub =>
            cases hins : insertPath sub (q :: rest) c with
            | none =>
              simp only [List.cons_append, List.nil_append, insertPath, hl, hins] at h
              cases h
            | some sub2 =>
              simp only [List.cons_append, List.nil_append, insertPath, hl, hins,
                Option.some.injEq] at h
              subst h
              exact ⟨sub2, by rw [lookupPath_one, lookupKey_setKey, if_pos rfl]⟩
    | cons p2 pre2 =>
      cases hl : lookupKey tree p with
      | none =>
        simp only [List.cons_append, insertPath, hl] at h
        split at h
        · cases h
        · rename_i sub2 hins
          obtain rfl := Option.some.inj h
          obtain ⟨sub3, hsub3⟩ := ih [] suf c sub2 hins (List.cons_ne_nil p2 pre2) hsuf
          refine ⟨sub3, ?_⟩
          have hkey : lookupKey (setKey tree p (.dir sub2)) p = some (.dir sub2) := by
            rw [lookupKey_setKey, if_pos rfl]
          rw [lookupPath_cons_dir hkey (List.cons_ne_nil p2 pre2)]
          exact hsub3
      | some node =>
        cases node with
        | file f0 =>
          simp only [List.cons_append, insertPath, hl] at h
          cases h
        | dir sub =>
          simp only [List.cons_append, insertPath, hl] at h
          split at h
          · cases h
          · rename_i sub2 hins
            obtain rfl := Option.some.inj h
            obtain ⟨sub3, hsub3⟩ := ih sub suf c sub2 hins (List.cons_ne_nil p2 pre2) hsuf
            refine ⟨sub3, ?_⟩
            have hkey : lookupKey (setKey tree p (.dir sub2)) p = some (.dir sub2) := by
              rw [lookupKey_setKey, if_pos rfl]
            rw [lookupPath_cons_dir hkey (List.cons_ne_nil p2 pre2)]
            exact hsub3

theorem lookupPath_nil_path (t : List (String × JNode)) : lookupPath t [] = none := rfl

theorem insert_total :
    ∀ (ps : List String) (tree : List (String × JNode)) (c : String),
    ps ≠ [] →
    (∀ pre suf, ps = pre ++ suf → pre ≠ [] → suf ≠ [] →
      ∀ c', lookupPath tree pre ≠ some (.file c')) →
    ∃ t2, insertPath tree ps c = some t2 := by
  intro ps
  induction ps with
  | nil => intro tree c hne _; exact absurd rfl hne
  | cons p ps ih =>
    intro tree c _ hpre
    cases ps with
    | nil => exact ⟨setKey tree p (.file c), rfl⟩
    | cons q rest =>
      cases hl : lookupKey tree p with
      | some node =>
        cases node with
        | file f0 =>
          exact absurd (show lookupPath tree [p] = some (.file f0) from hl)
            (hpre [p] (q :: rest) rfl (List.cons_ne_nil p []) (List.cons_ne_nil q rest) f0)
        | dir sub =>
          obtain ⟨sub2, hsub2⟩ := ih sub c (List.cons_ne_nil q rest)
            (fun pre suf heq hprene hsufne c' hlp =>
              hpre (p :: pre) suf (by rw [List.cons_append, ← heq])
                (List.cons_ne_nil p pre) hsufne c'
                ((lookupPath_cons_dir hl hprene).trans hlp))
          exact ⟨setKey tree p (.dir sub2), by simp only [insertPath, hl, hsub2]⟩
      | none =>
        obtain ⟨sub2, hsub2⟩ := ih [] c (List.cons_ne_nil q rest)
          (fun pre suf heq hprene hsufne c' hlp => by
            rw [lookupPath_nil] at hlp; cases hlp)
        exact ⟨setKey tree p (.dir sub2), by simp only [insertPath, hl, hsub2]⟩

theorem insert_file_paths :
    ∀ (ps : List String) (tree : List (String × JNode)) (c : String)
      (t2 : List (String × JNode)),
    insertPath tree ps c = some t2 →
    ∀ (q : List String) (c' : String), lookupPath t2 q = some (.file c') →
    lookupPath tree q = some (.file c') ∨ (q = ps ∧ c' = c) := by
  intro ps
  induction ps with
  | nil => intro tree c t2 h; exact absurd h (by simp [insertPath])
  | cons p ps ih =>
    intro tree c t2 h q c' hq
    cases ps with
    | nil =>
      rw [insertPath] at h
      obtain rfl := Option.some.inj h
      cases q with
      | nil => rw [lookupPath_nil_path] at hq; cases hq
      | cons x q' =>
        cases q' with
        | nil =>
          rw [lookupPath_one, lookupKey_setKey] at hq
          by_cases hx : p = x
          · rw [if_pos hx] at hq
            have hc := JNode.file.inj (Option.some.inj hq)
            exact Or.inr ⟨by rw [← hx], hc.symm⟩
          · rw [if_neg hx] at hq
            exact Or.inl (by rw [lookupPath_one]; exact hq)
        | cons y r =>
          by_cases hx : p = x
          · subst hx
            have hnone : lookupPath (setKey tree p (.file c)) (p :: y :: r) = none := by
              simp [lookupPath, lookupKey_setKey]
            rw [hnone] at hq; cases hq
          · have hkey : lookupKey (setKey tree p (.file c)) x = lookupKey tree x := by
              rw [lookupKey_setKey, if_neg hx]
            rw [lookupPath_cons_congr hkey y r] at hq
            exact Or.inl hq
    | cons q0 rest =>
      cases hl : lookupKey tree p with
      | some node =>
        cases node with
        | file f0 => simp only [insertPath, hl] at h; cases h
        | dir sub =>
          simp only [insertPath, hl] at h
          split at h
          · cases h
          · rename_i sub2 hins
            obtain rfl := Option.some.inj h
            cases q with
            | nil => rw [lookupPath_nil_path] at hq; cases hq
            | cons x q' =>
              cases q' with
              | nil =>
                rw [lookupPath_one, lookupKey_setKey] at hq
                by_cases hx : p = x
                · rw [if_pos hx] at hq; simp at hq
                · rw [if_neg hx] at hq
                  exact Or.inl (by rw [lookupPath_one]; exact hq)
              | cons y r =>
                by_cases hx : p = x
                · subst hx
                  have hstep : lookupPath (setKey tree p (.dir sub2)) (p :: y :: r) =
                      lookupPath sub2 (y :: r) :=
                    lookupPath_cons_dir (by rw [lookupKey_setKey, if_pos rfl])
                      (List.cons_ne_nil y r)
                  rw [hstep] at hq
                  rcases ih sub c sub2 hins (y :: r) c' hq with hleft | ⟨heq, rfl⟩
                  · exact Or.inl (by
                      rw [lookupPath_cons_dir hl (List.cons_ne_nil y r)]; exact hleft)
                  · exact Or.inr ⟨by rw [heq], rfl⟩
                · have hkey : lookupKey (setKey tree p (.dir sub2)) x = lookupKey tree x := by
                    rw [lookupKey_setKey, if_neg hx]
                  rw [lookupPath_cons_congr hkey y r] at hq
                  exact Or.inl hq
      | none =>
        simp only [insertPath, hl] at h
        split at h
        · cases h
        · rename_i sub2 hins
          obtain rfl := Option.some.inj h
          cases q with
          | nil => rw [lookupPath_nil_path] at hq; cases hq
          | cons x q' =>
            cases q' with
            | nil =>
              rw [lookupPath_one, lookupKey_setKey] at hq
              by_cases hx : p = x
              · rw [if_pos hx] at hq; simp at hq
              · rw [if_neg hx] at hq
                exact Or.inl (by rw [lookupPath_one]; exact hq)
            | cons y r =>
              by_cases hx : p = x
              · subst hx
                have hstep : lookupPath (setKey tree p (.dir sub2)) (p :: y :: r) =
                    lookupPath sub2 (y :: r) :=
                  lookupPath_cons_dir (by rw [lookupKey_setKey, if_pos rfl])
                    (List.cons_ne_nil y r)
                rw [hstep] at hq
                rcases ih [] c sub2 hins (y :: r) c' hq with hleft | ⟨heq, rfl⟩
                · rw [lookupPath_nil] at hleft; cases hleft
                · exact Or.inr ⟨by rw [heq], rfl⟩
              · have hkey : lookupKey (setKey tree p (.dir sub2)) x = lookupKey tree x := by
                  rw [lookupKey_setKey, if_neg hx]
                rw [lookupPath_cons_congr hkey y r] at hq
                exact Or.inl hq

theorem splitOnChar_ne_nil (sep : Char) : ∀ l : List Char, splitOnChar sep l ≠ [] := by
  intro l
  induction l with
  | nil => simp [splitOnChar]
  | cons c t ih =>
    rw [splitOnChar]
    by_cases h : c = sep
    · simp [h]
    · rw [if_neg h]
      cases hs : splitOnChar sep t with
      | nil => exact absurd hs ih
      | cons hd r => simp

theorem normSegs_ne_nil (f : DbFile) : normSegs f ≠ [] := by
  rw [normSegs]
  intro h
  rw [List.map_eq_nil_iff] at h
  exact splitOnChar_ne_nil '/' _ h

theorem convert_total_aux :
    ∀ (files : List DbFile) (tree : List (String × JNode)),
    (∀ f ∈ files, ∀ pre suf, normSegs f = pre ++ suf → pre ≠ [] → suf ≠ [] →
      ∀ c', lookupPath tree pre ≠ some (.file c')) →
    (∀ f ∈ files, ∀ g ∈ files, ∀ suf : List String, suf ≠ [] →
      normSegs g ≠ normSegs f ++ suf) →
    ∃ t2, List.foldlM (fun tree f => insertPath tree (normSegs f) (contentsOf f)) tree files
      = some t2 := by
  intro files
  induction files with
  | nil => intro tree _ _; exact ⟨tree, rfl⟩
  | cons f rest ih =>
    intro tree hinv hpf
    obtain ⟨t1, ht1⟩ := insert_total (normSegs f) tree (contentsOf f) (normSegs_ne_nil f)
      (fun pre suf heq hpre hsuf c' =>
        hinv f (List.mem_cons_self f rest) pre suf heq hpre hsuf c')
    have hinv2 : ∀ g ∈ rest, ∀ pre suf, normSegs g = pre ++ suf → pre ≠ [] → suf ≠ [] →
        ∀ c', lookupPath t1 pre ≠ some (.file c') := by
      intro g hg pre suf heq hpre hsuf c' hlp
      rcases insert_file_paths (normSegs f) tree (contentsOf f) t1 ht1 pre c' hlp with
        hold | ⟨hpre_eq, _⟩
      · exact hinv g (List.mem_cons_of_mem f hg) pre suf heq hpre hsuf c' hold
      · exact hpf f (List.mem_cons_self f rest) g (List.mem_cons_of_mem f hg) suf hsuf
          (by rw [heq, hpre_eq])
    have hpf2 : ∀ f2 ∈ rest, ∀ g ∈ rest, ∀ suf : List String, suf ≠ [] →
        normSegs g ≠ normSegs f2 ++ suf :=
      fun f2 hf2 g hg suf hsuf =>
        hpf f2 (List.mem_cons_of_mem f hf2) g (List.mem_cons_of_mem f hg) suf hsuf
    obtain ⟨t2, ht2⟩ := ih t1 hinv2 hpf2
    refine ⟨t2, ?_⟩
    rw [List.foldlM_cons, ht1]
    exact ht2

/-- Claim C10: the conversion is not total — a file whose full path is
later used as a directory prefix by another file makes the walk read the
`.directory` field of a file node and crash — and it is total under the
precondition that no record's normalized path extends another record's
normalized path by a nonempty segment suffix (no proper directory
prefix). -/
theorem c10_conversion_not_total :
    convertFilesToTree [⟨"a", some "x"⟩, ⟨"a/b", some "y"⟩] = none ∧
    (∀ files : List DbFile,
      (∀ f ∈ files, ∀ g ∈ files, ∀ suf : List String, suf ≠ [] →
        normSegs g ≠ normSegs f ++ suf) →
      ∃ t, convertFilesToTree files = some t) := by
  refine ⟨rfl, ?_⟩
  intro files hpf
  exact convert_total_aux files []
    (fun f _ pre suf _ _ _ c' hlp => by rw [lookupPath_nil] at hlp; cases hlp) hpf

/-- Claim C10, witness: a single record is prefix-free and converts. -/
theorem c10_conversion_not_total_witness :
    (∀ f ∈ [(⟨"a", some "x"⟩ : DbFile)], ∀ g ∈ [(⟨"a", some "x"⟩ : DbFile)],
      ∀ suf : List String, suf ≠ [] → normSegs g ≠ normSegs f ++ suf) ∧
    ∃ t, convertFilesToTree [⟨"a", some "x"⟩] = some t := by
  have hyp : ∀ f ∈ [(⟨"a", some "x"⟩ : DbFile)], ∀ g ∈ [(⟨"a", some "x"⟩ : DbFile)],
      ∀ suf : List String, suf ≠ [] → normSegs g ≠ normSegs f ++ suf := by
    intro f hf g hg suf hsuf heq
    simp only [List.mem_singleton] at hf hg
    subst hf; subst hg
    rw [show normSegs (⟨"a", some "x"⟩ : DbFile) = ["a"] from rfl] at heq
    simp only [List.singleton_append] at heq
    exact hsuf (List.cons.inj heq).2.symm
  exact ⟨hyp, c10_conversion_not_total.2 [⟨"a", some "x"⟩] hyp⟩

/-- Claim C9: the conversion strips leading slashes, splits on `/`, maps
a missing or null content to the empty string, processes each record by
inserting its normalized segments, maps the final segment to a file node
holding the record's contents, maps every intermediate segment to a
directory node, and reuses an existing directory node by descending into
it rather than replacing it. -/
theorem c9_tree_conversion :
    (∀ (p : String) (c : Option String),
      normSegs ⟨"/" ++ p, c⟩ = normSegs ⟨p, c⟩) ∧
    (∀ f : DbFile, f.content = none → contentsOf f = "") ∧
    (∀ f : DbFile, convertFilesToTree [f] = insertPath [] (normSegs f) (contentsOf f)) ∧
    (∀ (tree : List (String × JNode)) (ps : List String) (c : String)
        (t2 : List (String × JNode)),
      insertPath tree ps c = some t2 → lookupPath t2 ps = some (.file c)) ∧
    (∀ (tree : List (String × JNode)) (pre suf : List String) (c : String)
        (t2 : List (String × JNode)),
      insertPath tree (pre ++ suf) c = some t2 → pre ≠ [] → suf ≠ [] →
      ∃ sub, lookupPath t2 pre = some (.dir sub)) ∧
    (∀ (tree sub : List (String × JNode)) (p q : String) (rest : List String) (c : String),
      lookupKey tree p = some (.dir sub) →
      insertPath tree (p :: q :: rest) c =
        (insertPath sub (q :: rest) c).map (fun sub2 => setKey tree p (.dir sub2))) := by
  refine ⟨?_, ?_, ?_, ?_, ?_, ?_⟩
  · intro p c
    have hdrop : ("/" ++ p).data.dropWhile (· == '/') = p.data.dropWhile (· == '/') := by
      rw [strData_append]
      rfl
    rw [normSegs, normSegs]
    rw [show (⟨"/" ++ p, c⟩ : DbFile).path = "/" ++ p from rfl,
      show (⟨p, c⟩ : DbFile).path = p from rfl, hdrop]
  · intro f h
    simp [contentsOf, h]
  · intro f
    cases h : insertPath [] (normSegs f) (contentsOf f) <;>
      simp [convertFilesToTree, List.foldlM_cons, List.foldlM_nil, h]
  · exact fun tree ps c t2 h => insert_lookup_self ps tree c t2 h
  · exact fun tree pre suf c t2 h => insert_prefix_dir pre tree suf c t2 h
  · intro tree sub p q rest c hl
    cases hins : insertPath sub (q :: rest) c <;>
      simp only [insertPath, hl, hins, Option.map_none', Option.map_some']

/-- Claim C9, witness: inserting "src/app.js" into the empty tree yields
a directory node for "src" containing a file node for "app.js", and the
full path looks up to the record's contents. -/
theorem c9_tree_conversion_witness :
    insertPath [] ["src", "app.js"] "x" =
      some [("src", JNode.dir [("app.js", JNode.file "x")])] ∧
    lookupPath [("src", JNode.dir [("app.js", JNode.file "x")])] ["src", "app.js"] =
      some (JNode.file "x") :=
  ⟨rfl, c9_tree_conversion.2.2.2.1 [] ["src", "app.js"] "x"
    [("src", JNode.dir [("app.js", JNode.file "x")])] rfl⟩

end GorillaBuilder
